import Mathlib

/-!
# Verification of the fine-tuning orchestration scripts

Shallow embedding of the two command-line pipelines of the repository:
`FinetuningOlama/finetuning.py` (class `PhiFineTuner` and its `main`) and
`FinetuningOllama/convert_to_gguf.py` (function `main`).

Python strings are modelled as Lean `String`/`List Char`; JSON values as the
inductive `JVal`; raised exceptions as `Except`/error results; the external
machine-learning library calls (model loading, training, GGUF export) as
opaque steps that are assumed to return, matching the spec's treatment of
them as delegated collaborators.
-/

/-- A JSON value as produced by Python's `json.load` on the training file:
object keys are strings, numbers are modelled as integers (floating-point
values are outside the embedding). -/
inductive JVal where
  | null : JVal
  | bool : Bool → JVal
  | int : Int → JVal
  | str : String → JVal
  | arr : List JVal → JVal
  | obj : List (String × JVal) → JVal

/-- Decimal digit characters of a natural number, most significant first;
empty for `0` (callers special-case zero exactly as Python's `str` never
produces an empty numeral). -/
def natChars (n : Nat) : List Char :=
  (Nat.digits 10 n).reverse.map (fun d => Char.ofNat (48 + d))

/-- Decimal rendering of a Python integer, as `str`/`json.dumps` prints it. -/
def intChars : Int → List Char
  | Int.ofNat n => if n = 0 then ['0'] else natChars n
  | Int.negSucc m => '-' :: natChars (m + 1)

/-- Lower-case hexadecimal digit, as used by `json.dumps` control escapes. -/
def hexChar (n : Nat) : Char :=
  if n < 10 then Char.ofNat (48 + n) else Char.ofNat (87 + n)

/-- Escape of one character inside a JSON string literal, following
`json.dumps` with `ensure_ascii=False`: only the quote, the backslash and
control characters below U+0020 are escaped; everything else is passed
through verbatim. -/
def escChar (c : Char) : List Char :=
  if c = '\"' then ['\\', '\"']
  else if c = '\\' then ['\\', '\\']
  else if c = '\x08' then ['\\', 'b']
  else if c = '\x0c' then ['\\', 'f']
  else if c = '\n' then ['\\', 'n']
  else if c = '\r' then ['\\', 'r']
  else if c = '\t' then ['\\', 't']
  else if c.toNat < 32 then
    ['\\', 'u', '0', '0', hexChar (c.toNat / 16), hexChar (c.toNat % 16)]
  else [c]

/-- Escape of a whole JSON string body. -/
def jsonEscape (s : List Char) : List Char :=
  (s.map escChar).flatten

mutual

/-- `json.dumps(v, ensure_ascii=False)` with the default separators
`", "` and `": "`, as the character list of the resulting text. -/
def json_dumps : JVal → List Char
  | JVal.null => ['n', 'u', 'l', 'l']
  | JVal.bool true => ['t', 'r', 'u', 'e']
  | JVal.bool false => ['f', 'a', 'l', 's', 'e']
  | JVal.int n => intChars n
  | JVal.str s => '\"' :: (jsonEscape s.data ++ ['\"'])
  | JVal.arr xs => '[' :: (jsonDumpsElems xs ++ [']'])
  | JVal.obj kvs => '\x7b' :: (jsonDumpsMembers kvs ++ ['\x7d'])

/-- Comma-space separated array elements of `json.dumps`. -/
def jsonDumpsElems : List JVal → List Char
  | [] => []
  | [x] => json_dumps x
  | x :: y :: xs => json_dumps x ++ ',' :: ' ' :: jsonDumpsElems (y :: xs)

/-- Comma-space separated object members of `json.dumps`. -/
def jsonDumpsMembers : List (String × JVal) → List Char
  | [] => []
  | [(k, v)] => '\"' :: (jsonEscape k.data ++ '\"' :: ':' :: ' ' :: json_dumps v)
  | (k, v) :: kv :: kvs =>
      ('\"' :: (jsonEscape k.data ++ '\"' :: ':' :: ' ' :: json_dumps v))
        ++ ',' :: ' ' :: jsonDumpsMembers (kv :: kvs)

end

/-- `json.dumps(v, ensure_ascii=False)` as a Lean `String`. -/
def jsonDumpsStr (v : JVal) : String :=
  ⟨json_dumps v⟩

/-- A well-formed training example: the `input` and `output` fields of one
record of the JSON data file (spec §3 "Example"). -/
structure Beispiel where
  input : String
  output : JVal

/-- `PhiFineTuner.formatiere_prompt` (finetuning.py lines 58-68): the f-string
`### Eingabe: {input}\n### Ausgabe: {json.dumps(output, ensure_ascii=False)}<|endoftext|>`. -/
def formatiere_prompt (beispiel : Beispiel) : String :=
  "### Eingabe: " ++ beispiel.input ++ "\n### Ausgabe: "
    ++ jsonDumpsStr beispiel.output ++ "<|endoftext|>"

/-! ## JSON deserialization

Modelled from the spec: the repository delegates deserialization to the
Python standard library (`json.loads`), which is not part of the source
tree.  The parser below implements standard JSON reading over the same
value fragment as `JVal` (integers in place of general numbers), so that
the spec's round-trip property can be stated. -/

/-- JSON insignificant whitespace. -/
def isWsChar (c : Char) : Bool :=
  c = ' ' || c = '\t' || c = '\n' || c = '\r'

/-- Drop leading insignificant whitespace. -/
def skipWs : List Char → List Char
  | [] => []
  | c :: cs => if isWsChar c then skipWs cs else c :: cs

/-- ASCII decimal digit test. -/
def isDigitChar (c : Char) : Bool :=
  48 ≤ c.toNat && c.toNat ≤ 57

/-- Value of an ASCII decimal digit. -/
def digitVal (c : Char) : Nat :=
  c.toNat - 48

/-- Consume a maximal run of decimal digits, accumulating their value
left to right. -/
def parseDigits : List Char → Nat → Nat × List Char
  | [], acc => (acc, [])
  | c :: cs, acc =>
    if isDigitChar c then parseDigits cs (acc * 10 + digitVal c) else (acc, c :: cs)

/-- Value of a hexadecimal digit, upper or lower case. -/
def hexVal? (c : Char) : Option Nat :=
  if 48 ≤ c.toNat ∧ c.toNat ≤ 57 then some (c.toNat - 48)
  else if 97 ≤ c.toNat ∧ c.toNat ≤ 102 then some (c.toNat - 87)
  else if 65 ≤ c.toNat ∧ c.toNat ≤ 70 then some (c.toNat - 55)
  else none

/-- The character denoted by a one-letter JSON escape. -/
def unescChar? (c : Char) : Option Char :=
  if c = '\"' then some '\"'
  else if c = '\\' then some '\\'
  else if c = '/' then some '/'
  else if c = 'b' then some '\x08'
  else if c = 'f' then some '\x0c'
  else if c = 'n' then some '\n'
  else if c = 'r' then some '\r'
  else if c = 't' then some '\t'
  else none

/-- Body of a JSON string literal after its opening quote: the decoded
characters together with the text following the closing quote. -/
def parseStrBody : List Char → Option (List Char × List Char)
  | [] => none
  | c :: cs =>
    if c = '\"' then some ([], cs)
    else if c = '\\' then
      match cs with
      | [] => none
      | e :: cs2 =>
        if e = 'u' then
          match cs2 with
          | h1 :: h2 :: h3 :: h4 :: cs3 =>
            match hexVal? h1, hexVal? h2, hexVal? h3, hexVal? h4 with
            | some a, some b, some c2, some d =>
              match parseStrBody cs3 with
              | some (s, rest) =>
                  some (Char.ofNat (((a * 16 + b) * 16 + c2) * 16 + d) :: s, rest)
              | none => none
            | _, _, _, _ => none
          | _ => none
        else
          match unescChar? e with
          | some c2 =>
            match parseStrBody cs2 with
            | some (s, rest) => some (c2 :: s, rest)
            | none => none
          | none => none
    else
      match parseStrBody cs with
      | some (s, rest) => some (c :: s, rest)
      | none => none

/-- Consume the text of the keyword `lit`; fail otherwise. -/
def stripPre : List Char → List Char → Option (List Char)
  | [], s => some s
  | _, [] => none
  | p :: ps, c :: cs => if c = p then stripPre ps cs else none

mutual

/-- Recursive-descent JSON value parser (fuelled); returns the value and the
unconsumed remainder. -/
def parseVal : Nat → List Char → Option (JVal × List Char)
  | 0, _ => none
  | _, [] => none
  | fuel + 1, c :: rest =>
    if c = 'n' then
      match stripPre ['u', 'l', 'l'] rest with
      | some rest2 => some (JVal.null, rest2)
      | none => none
    else if c = 't' then
      match stripPre ['r', 'u', 'e'] rest with
      | some rest2 => some (JVal.bool true, rest2)
      | none => none
    else if c = 'f' then
      match stripPre ['a', 'l', 's', 'e'] rest with
      | some rest2 => some (JVal.bool false, rest2)
      | none => none
    else if c = '\"' then
      match parseStrBody rest with
      | some (s, rest2) => some (JVal.str ⟨s⟩, rest2)
      | none => none
    else if c = '[' then
      match skipWs rest with
      | ']' :: rest2 => some (JVal.arr [], rest2)
      | rest1 =>
        match parseElems fuel rest1 with
        | some (xs, rest2) =>
          match skipWs rest2 with
          | ']' :: rest3 => some (JVal.arr xs, rest3)
          | _ => none
        | none => none
    else if c = '\x7b' then
      match skipWs rest with
      | '\x7d' :: rest2 => some (JVal.obj [], rest2)
      | rest1 =>
        match parseMembers fuel rest1 with
        | some (kvs, rest2) =>
          match skipWs rest2 with
          | '\x7d' :: rest3 => some (JVal.obj kvs, rest3)
          | _ => none
        | none => none
    else if c = '-' then
      match rest with
      | [] => none
      | d :: rest2 =>
        if isDigitChar d then
          match parseDigits rest2 (digitVal d) with
          | (n, rest3) => some (JVal.int (-(n : Int)), rest3)
        else none
    else if isDigitChar c then
      match parseDigits rest (digitVal c) with
      | (n, rest2) => some (JVal.int (n : Int), rest2)
    else none

/-- Comma-separated array elements; stops before the closing bracket. -/
def parseElems : Nat → List Char → Option (List JVal × List Char)
  | 0, _ => none
  | fuel + 1, cs =>
    match parseVal fuel cs with
    | some (v, rest) =>
      match rest with
      | ',' :: rest2 =>
        match parseElems fuel (skipWs rest2) with
        | some (xs, rest3) => some (v :: xs, rest3)
        | none => none
      | _ => some ([v], rest)
    | none => none

/-- Comma-separated object members; stops before the closing brace. -/
def parseMembers : Nat → List Char → Option (List (String × JVal) × List Char)
  | 0, _ => none
  | fuel + 1, cs =>
    match cs with
    | '\"' :: cs1 =>
      match parseStrBody cs1 with
      | some (k, cs2) =>
        match skipWs cs2 with
        | ':' :: cs3 =>
          match parseVal fuel (skipWs cs3) with
          | some (v, rest) =>
            match rest with
            | ',' :: rest2 =>
              match parseMembers fuel (skipWs rest2) with
              | some (kvs, rest3) => some ((⟨k⟩, v) :: kvs, rest3)
              | none => none
            | _ => some ([(⟨k⟩, v)], rest)
          | none => none
        | _ => none
      | none => none
    | _ => none

end

/-- `json.loads`: parse a complete JSON document, requiring only
insignificant whitespace around the single top-level value. -/
def json_loads (s : String) : Option JVal :=
  match parseVal (s.data.length + 1) (skipWs s.data) with
  | some (v, rest) => if skipWs rest = [] then some v else none
  | none => none

mutual

/-- Number of parsing steps needed for a value: a fuel lower bound for
`parseVal`. -/
def jsize : JVal → Nat
  | JVal.null => 1
  | JVal.bool _ => 1
  | JVal.int _ => 1
  | JVal.str _ => 1
  | JVal.arr xs => 1 + lsize xs
  | JVal.obj kvs => 1 + msize kvs

/-- Fuel lower bound for `parseElems`. -/
def lsize : List JVal → Nat
  | [] => 0
  | x :: xs => 1 + jsize x + lsize xs

/-- Fuel lower bound for `parseMembers`. -/
def msize : List (String × JVal) → Nat
  | [] => 0
  | (_, v) :: kvs => 1 + jsize v + msize kvs

end

/-- The continuation after a serialized value never starts with a digit (so a
numeral is not extended into it). -/
def kopfKeineZiffer : List Char → Prop
  | [] => True
  | c :: _ => isDigitChar c = false

/-- The continuation after a list of serialized elements never starts with a
comma (so the element loop stops there). -/
def kopfKeinKomma : List Char → Prop
  | [] => True
  | c :: _ => c ≠ ','

/-- The serialized-output segment of a rendered prompt: the characters between
the fixed `"\n### Ausgabe: "` separator that follows the example's input and
the final `"<|endoftext|>"` marker. -/
def ausgabeSegment (b : Beispiel) : List Char :=
  let l := (formatiere_prompt b).data
  let k := "### Eingabe: ".length + b.input.length + "\n### Ausgabe: ".length
  (l.drop k).take ((l.drop k).length - "<|endoftext|>".length)

/-! ## The trainer pipeline (`FinetuningOlama/finetuning.py`) -/

/-- The Python exceptions the data stage can raise: `rohdaten[0]` on an empty
list raises `IndexError`; a missing `input`/`output` field raises `KeyError`. -/
inductive PyFehler where
  | indexError : PyFehler
  | keyError : PyFehler
deriving DecidableEq

/-- One record of the decoded JSON training file, projected to the two fields
the program reads; a missing field is `none`. -/
structure RawEintrag where
  input : Option String
  output : Option JVal

/-- `PhiFineTuner.lade_daten` (finetuning.py lines 44-56), applied to the
already-decoded contents of the JSON file: it prints the number of examples
and then a sample, reading `rohdaten[0]["input"]` and `rohdaten[0]["output"]`.
Only the first record is inspected; file-open and JSON-decode failures happen
before this point and are outside this function's input. -/
def lade_daten : List RawEintrag → Except PyFehler Unit
  | [] => Except.error PyFehler.indexError
  | e :: _ =>
    match e.input with
    | none => Except.error PyFehler.keyError
    | some _ =>
      match e.output with
      | none => Except.error PyFehler.keyError
      | some _ => Except.ok ()

/-- `formatiere_prompt` applied to a raw record: the f-string reads
`beispiel["input"]` and then `beispiel["output"]`, raising `KeyError` when a
field is absent. -/
def formatiere_prompt_eintrag (e : RawEintrag) : Except PyFehler String :=
  match e.input with
  | none => Except.error PyFehler.keyError
  | some i =>
    match e.output with
    | none => Except.error PyFehler.keyError
    | some o => Except.ok (formatiere_prompt ⟨i, o⟩)

/-- `PhiFineTuner.bereite_dataset_vor` (lines 70-79): renders every record via
`formatiere_prompt` in order, as the list comprehension does; the first record
missing a field raises `KeyError`. -/
def bereite_dataset_vor : List RawEintrag → Except PyFehler (List String)
  | [] => Except.ok []
  | e :: es =>
    match formatiere_prompt_eintrag e with
    | Except.error err => Except.error err
    | Except.ok s =>
      match bereite_dataset_vor es with
      | Except.error err => Except.error err
      | Except.ok ss => Except.ok (s :: ss)

/-- The `fp16` argument of `TrainingArguments` (line 157):
`not torch.cuda.is_bf16_supported() if self.gpu_verfuegbar else False`. -/
def fp16_arg (gpu_verfuegbar bf16_supported : Bool) : Bool :=
  if gpu_verfuegbar then !bf16_supported else false

/-- The `bf16` argument of `TrainingArguments` (line 158):
`torch.cuda.is_bf16_supported() if self.gpu_verfuegbar else False`. -/
def bf16_arg (gpu_verfuegbar bf16_supported : Bool) : Bool :=
  if gpu_verfuegbar then bf16_supported else false

/-- The pair of numeric-precision flags passed to the trainer. -/
def praezisionsFlags (gpu_verfuegbar bf16_supported : Bool) : Bool × Bool :=
  (fp16_arg gpu_verfuegbar bf16_supported, bf16_arg gpu_verfuegbar bf16_supported)

/-- The named operations `main` can invoke on the tuner. -/
inductive Schritt where
  | ladeDaten : Schritt
  | bereiteDatasetVor : Schritt
  | ladeModell : Schritt
  | konfiguriereLora : Schritt
  | trainiere : Schritt
  | testeModell : Schritt
  | exportiereGguf : Schritt
deriving DecidableEq

/-- Outcome of one trainer invocation: the operations that were entered, in
order, and the exception that aborted the run, if any. -/
structure Ablauf where
  schritte : List Schritt
  fehler : Option PyFehler
deriving DecidableEq

/-- `main` of finetuning.py (lines 274-356) after argument parsing: runs
`lade_daten`, `bereite_dataset_vor`, `lade_modell`, `konfiguriere_lora`, then
`trainiere` unless `--nur-test`, always `teste_modell`, and `exportiere_gguf`
when neither `--kein-export` nor `--nur-test` is set.  The model-related calls
are delegated library work and are modelled as returning normally; a data
exception propagates out of `main` uncaught, ending the run. -/
def mainAblauf (roh : List RawEintrag) (nur_test kein_export : Bool) : Ablauf :=
  match lade_daten roh with
  | Except.error e => ⟨[Schritt.ladeDaten], some e⟩
  | Except.ok _ =>
    match bereite_dataset_vor roh with
    | Except.error e => ⟨[Schritt.ladeDaten, Schritt.bereiteDatasetVor], some e⟩
    | Except.ok _ =>
      ⟨[Schritt.ladeDaten, Schritt.bereiteDatasetVor, Schritt.ladeModell,
          Schritt.konfiguriereLora]
        ++ (if nur_test then [] else [Schritt.trainiere])
        ++ [Schritt.testeModell]
        ++ (if !kein_export && !nur_test then [Schritt.exportiereGguf] else []),
        none⟩

/-! ## The GGUF export search (`PhiFineTuner.exportiere_gguf`, lines 229-271) -/

/-- `needle` starts `hay`. -/
def hatPre : List Char → List Char → Bool
  | [], _ => true
  | _ :: _, [] => false
  | n :: ns, h :: hs => n = h && hatPre ns hs

/-- `needle` occurs as a contiguous substring of `hay` (Python's `in` on
strings). -/
def containsSub : List Char → List Char → Bool
  | needle, [] => hatPre needle []
  | needle, h :: hs => hatPre needle (h :: hs) || containsSub needle hs

/-- `str.upper()` restricted to the ASCII case mapping, sufficient for the
quantization labels and file names involved. -/
def pyUpper (s : String) : String :=
  ⟨s.data.map Char.toUpper⟩

/-- `str.replace("_", "-")`. -/
def ersetzeUnterstrich (s : String) : String :=
  ⟨s.data.map (fun c => if c = '_' then '-' else c)⟩

/-- The search pattern `quantisierung.upper().replace("_", "-")` (line 260). -/
def suchMuster (quantisierung : String) : String :=
  ersetzeUnterstrich (pyUpper quantisierung)

/-- The loop test on line 260: the pattern occurs in `datei.upper()`. -/
def passtQuant (quantisierung datei : String) : Bool :=
  containsSub (suchMuster quantisierung).data (pyUpper datei).data

/-- `f.endswith(".gguf")` (line 257). -/
def endetGguf (f : String) : Bool :=
  ".gguf".data.isSuffixOf f.data

/-- What `exportiere_gguf` reports after the library call returned. -/
inductive ExportErgebnis where
  | erfolg : String → ExportErgebnis
  | warnung : ExportErgebnis
deriving DecidableEq

/-- `gguf_ordner = os.path.join(self.ausgabe_ordner, "gguf_modell")`
(line 249), for a directory path without a trailing separator. -/
def gguf_ordner (ausgabe_ordner : String) : String :=
  ausgabe_ordner ++ "/gguf_modell"

/-- `PhiFineTuner.exportiere_gguf` after `save_pretrained_gguf` returned
(lines 256-271): list the gguf directory, keep names ending in `.gguf`, take
the first whose upper-cased name contains the pattern, and report success
with its joined path, else only a warning.  `listdir` stands for
`os.listdir`. -/
def exportiere_gguf (listdir : String → List String)
    (ausgabe_ordner quantisierung : String) : ExportErgebnis :=
  let ordner := gguf_ordner ausgabe_ordner
  let gguf_dateien := (listdir ordner).filter endetGguf
  match gguf_dateien.find? (passtQuant quantisierung) with
  | some datei => ExportErgebnis.erfolg (ordner ++ "/" ++ datei)
  | none => ExportErgebnis.warnung

/-! ## The standalone converter (`FinetuningOllama/convert_to_gguf.py`) -/

/-- What the converter's `main` produced: its return value (the process exit
code) and the console messages of the failure/success paths. -/
structure KonvertierungsErgebnis where
  exitCode : Nat
  meldungen : List String
deriving DecidableEq

/-- `main` of convert_to_gguf.py (lines 32-107) after argument parsing.
`lade` is the outcome of the guarded `FastLanguageModel.from_pretrained`
call, `konvertiere` the outcome of the guarded `save_pretrained_gguf` call, each
carrying the exception text on failure; `listing` is the contents of the
output directory if it exists (`os.path.exists`/`os.listdir`).  The final
per-file size/usage prints are reproduced without the numeric sizes, which
are irrelevant to control flow. -/
def convert_main (lade : Except String Unit) (konvertiere : Except String Unit)
    (listing : Option (List String)) (quantization : String) :
    KonvertierungsErgebnis :=
  match lade with
  | Except.error e =>
      ⟨1, ["❌ Fehler beim Laden des Modells: " ++ e,
           "  Stelle sicher, dass der Pfad korrekt ist und das Modell existiert."]⟩
  | Except.ok _ =>
    match konvertiere with
    | Except.error e =>
        ⟨1, ["❌ Fehler bei der GGUF-Konvertierung: " ++ e,
             "\nMögliche Lösungen:",
             "1. Stelle sicher, dass llama.cpp gebaut ist:",
             "   cd llama.cpp && cmake -B build -DLLAMA_CURL=OFF",
             "   cmake --build build --config Release",
             "2. Installiere mistral_common: pip install mistral_common"]⟩
    | Except.ok _ =>
      let kopf := ["✓ GGUF-Konvertierung erfolgreich abgeschlossen!"]
      let dateiMeldungen :=
        match listing with
        | none => []
        | some dateien =>
          let gguf_dateien := dateien.filter endetGguf
          if gguf_dateien.isEmpty then []
          else "\nErstellte GGUF-Dateien:"
                :: gguf_dateien.map (fun datei =>
                     "  - " ++ datei
                       ++ (if passtQuant quantization datei
                           then " (verwende mit Ollama)" else ""))
      ⟨0, kopf ++ dateiMeldungen⟩

/-! # Helper lemmas -/

theorem formatiere_prompt_eintrag_ok_output {e : RawEintrag} {s : String}
    (h : formatiere_prompt_eintrag e = Except.ok s) : e.output ≠ none := by
  intro hout
  unfold formatiere_prompt_eintrag at h
  rw [hout] at h
  cases hin : e.input <;> rw [hin] at h <;> simp at h

theorem bereite_dataset_vor_ok_felder :
    ∀ {roh : List RawEintrag} {l : List String},
      bereite_dataset_vor roh = Except.ok l → ∀ e ∈ roh, e.output ≠ none := by
  intro roh
  induction roh with
  | nil => intro l _ e he; exact absurd he (List.not_mem_nil e)
  | cons a as ih =>
    intro l h e he
    rw [bereite_dataset_vor] at h
    cases hfa : formatiere_prompt_eintrag a with
    | error err => rw [hfa] at h; simp at h
    | ok s =>
      rw [hfa] at h
      cases hbd : bereite_dataset_vor as with
      | error err => rw [hbd] at h; simp at h
      | ok ss =>
        rcases List.mem_cons.mp he with rfl | hin
        · exact formatiere_prompt_eintrag_ok_output hfa
        · exact ih hbd e hin

theorem mainAblauf_datenfehler {roh : List RawEintrag} (e : RawEintrag)
    (he : e ∈ roh) (hout : e.output = none) (nt ke : Bool) :
    (mainAblauf roh nt ke).fehler.isSome = true ∧
    Schritt.ladeModell ∉ (mainAblauf roh nt ke).schritte ∧
    Schritt.konfiguriereLora ∉ (mainAblauf roh nt ke).schritte ∧
    Schritt.trainiere ∉ (mainAblauf roh nt ke).schritte := by
  unfold mainAblauf
  cases hld : lade_daten roh with
  | error err => refine ⟨rfl, ?_, ?_, ?_⟩ <;> simp
  | ok u =>
    cases hbd : bereite_dataset_vor roh with
    | error err => refine ⟨rfl, ?_, ?_, ?_⟩ <;> simp
    | ok l => exact absurd hout (bereite_dataset_vor_ok_felder hbd e he)

theorem find?_filter_aufteilung {α : Type} (p q : α → Bool) :
    ∀ (l : List α) (a : α), (l.filter q).find? p = some a →
      ∃ l₁ l₂, l = l₁ ++ a :: l₂ ∧ q a = true ∧ p a = true ∧
        ∀ x ∈ l₁, ¬(q x = true ∧ p x = true) := by
  intro l
  induction l with
  | nil => intro a h; simp at h
  | cons b bs ih =>
    intro a h
    by_cases hq : q b = true
    · rw [List.filter_cons_of_pos hq] at h
      by_cases hp : p b = true
      · rw [List.find?_cons_of_pos _ hp] at h
        obtain rfl : b = a := by injection h
        exact ⟨[], bs, rfl, hq, hp, by intro x hx; simp at hx⟩
      · rw [List.find?_cons_of_neg _ (by simpa using hp)] at h
        obtain ⟨l₁, l₂, hsplit, hqa, hpa, hall⟩ := ih a h
        refine ⟨b :: l₁, l₂, by rw [hsplit]; rfl, hqa, hpa, ?_⟩
        intro x hx
        rcases List.mem_cons.mp hx with rfl | hx2
        · rintro ⟨_, hpx⟩; exact hp hpx
        · exact hall x hx2
    · rw [List.filter_cons_of_neg (by simpa using hq)] at h
      obtain ⟨l₁, l₂, hsplit, hqa, hpa, hall⟩ := ih a h
      refine ⟨b :: l₁, l₂, by rw [hsplit]; rfl, hqa, hpa, ?_⟩
      intro x hx
      rcases List.mem_cons.mp hx with rfl | hx2
      · rintro ⟨hqx, _⟩; exact hq hqx
      · exact hall x hx2

/-! # Claims -/

/-- C1: for the single record with input `<div>Phone</div>` and output
`{"name": "Phone"}`, `formatiere_prompt` returns exactly
`### Eingabe: <div>Phone</div>\n### Ausgabe: {"name": "Phone"}<|endoftext|>`. -/
theorem C1_prompt_genau :
    formatiere_prompt ⟨"<div>Phone</div>", JVal.obj [("name", JVal.str "Phone")]⟩
      = "### Eingabe: <div>Phone</div>\n### Ausgabe: \x7b\"name\": \"Phone\"\x7d<|endoftext|>" := by
  decide

/-- C2 counterexample: a collection whose second entry lacks the `output`
field is accepted by `lade_daten` without an error, because `lade_daten` only
inspects the first record; the claim that `lade_daten` raises for every such
collection is false. -/
theorem C2_lade_daten_uebersieht_spaetere_eintraege :
    lade_daten
        [⟨some "<div>A</div>", some (JVal.obj [("name", JVal.str "A")])⟩,
         ⟨some "<div>B</div>", none⟩]
      = Except.ok () := by
  rfl

/-- C2 (amended): for every collection in which some entry lacks the `output`
field, the data stage (`lade_daten` or `bereite_dataset_vor`) raises — a
`KeyError`, surfaced by the spec's taxonomy as the data error — and no
model-related call (`lade_modell`, `konfiguriere_lora`, `trainiere`) is
entered. -/
theorem C2_datenfehler_vor_modellaufrufen :
    ∀ (roh : List RawEintrag) (nt ke : Bool) (e : RawEintrag),
      e ∈ roh → e.output = none →
      (mainAblauf roh nt ke).fehler.isSome = true ∧
      Schritt.ladeModell ∉ (mainAblauf roh nt ke).schritte ∧
      Schritt.konfiguriereLora ∉ (mainAblauf roh nt ke).schritte ∧
      Schritt.trainiere ∉ (mainAblauf roh nt ke).schritte :=
  fun _ nt ke e he hout => mainAblauf_datenfehler e he hout nt ke

/-- Witness for C2 (amended) at a concrete one-entry collection lacking
`output`. -/
theorem C2_datenfehler_vor_modellaufrufen_witness :
    (mainAblauf [⟨some "x", none⟩] false false).fehler.isSome = true ∧
    Schritt.ladeModell ∉ (mainAblauf [⟨some "x", none⟩] false false).schritte ∧
    Schritt.konfiguriereLora ∉ (mainAblauf [⟨some "x", none⟩] false false).schritte ∧
    Schritt.trainiere ∉ (mainAblauf [⟨some "x", none⟩] false false).schritte :=
  C2_datenfehler_vor_modellaufrufen [⟨some "x", none⟩] false false
    ⟨some "x", none⟩ (by simp) rfl

/-- C4: the standalone converter returns exit code 0 when loading and export
both succeed, and 1 when loading fails or export fails, with the printed
remediation line present in both failure cases; `convert_main` is total, so
no fault propagates. -/
theorem C4_converter_exitcodes :
    ∀ (lade konv : Except String Unit) (listing : Option (List String)) (q : String),
      (lade = Except.ok () → konv = Except.ok () →
        (convert_main lade konv listing q).exitCode = 0) ∧
      (∀ e, lade = Except.error e →
        (convert_main lade konv listing q).exitCode = 1 ∧
        "  Stelle sicher, dass der Pfad korrekt ist und das Modell existiert."
          ∈ (convert_main lade konv listing q).meldungen) ∧
      (∀ e, lade = Except.ok () → konv = Except.error e →
        (convert_main lade konv listing q).exitCode = 1 ∧
        "2. Installiere mistral_common: pip install mistral_common"
          ∈ (convert_main lade konv listing q).meldungen) := by
  intro lade konv listing q
  refine ⟨?_, ?_, ?_⟩
  · rintro rfl rfl; rfl
  · rintro e rfl; exact ⟨rfl, by simp [convert_main]⟩
  · rintro e rfl rfl; exact ⟨rfl, by simp [convert_main]⟩

/-- Witness for C4 at a concrete failing load. -/
theorem C4_converter_exitcodes_witness :
    (convert_main (Except.error "Pfad fehlt") (Except.ok ()) none "q4_k_m").exitCode = 1 ∧
    "  Stelle sicher, dass der Pfad korrekt ist und das Modell existiert."
      ∈ (convert_main (Except.error "Pfad fehlt") (Except.ok ()) none "q4_k_m").meldungen :=
  (C4_converter_exitcodes (Except.error "Pfad fehlt") (Except.ok ()) none "q4_k_m").2.1
    "Pfad fehlt" rfl

/-- C5 counterexample: with the GPU probe fixed to `true`, the fp16/bf16 pair
still differs depending on the bf16-support probe, so the precision flags are
not a pure function of the single hardware-probe boolean. -/
theorem C5_gegenbeispiel_bf16_abhaengig :
    praezisionsFlags true true ≠ praezisionsFlags true false := by
  decide

/-- C5 (amended): the flags are a function of the startup GPU probe together
with the bf16-support probe: probe `false` selects both flags off, probe
`true` selects exactly one of the two precision flags. -/
theorem C5_praezision_nach_probe :
    (∀ b, praezisionsFlags false b = (false, false)) ∧
    (∀ b, (praezisionsFlags true b).1 ≠ (praezisionsFlags true b).2) := by
  decide

/-- C7 counterexample: on the empty collection the run aborts in
`lade_daten`, so the smoke test does not run (and training does not run even
though `--nur-test` is absent), refuting the unconditional claim. -/
theorem C7_gegenbeispiel_smoke_test :
    Schritt.testeModell ∉ (mainAblauf [] false false).schritte ∧
    Schritt.trainiere ∉ (mainAblauf [] false false).schritte := by
  decide

/-- C7 (amended): for every invocation whose data stage raises no error,
`trainiere` runs iff `--nur-test` is absent, `teste_modell` runs, and
`exportiere_gguf` runs iff both `--kein-export` and `--nur-test` are
absent. -/
theorem C7_flaggen_steuern_schritte :
    ∀ (roh : List RawEintrag) (nur_test kein_export : Bool),
      (mainAblauf roh nur_test kein_export).fehler = none →
      ((Schritt.trainiere ∈ (mainAblauf roh nur_test kein_export).schritte
          ↔ nur_test = false) ∧
        Schritt.testeModell ∈ (mainAblauf roh nur_test kein_export).schritte ∧
        (Schritt.exportiereGguf ∈ (mainAblauf roh nur_test kein_export).schritte
          ↔ (kein_export = false ∧ nur_test = false))) := by
  intro roh nt ke h
  unfold mainAblauf at h ⊢
  cases hld : lade_daten roh with
  | error err => rw [hld] at h; simp at h
  | ok u =>
    rw [hld] at h
    cases hbd : bereite_dataset_vor roh with
    | error err => rw [hbd] at h; simp at h
    | ok l => cases nt <;> cases ke <;> simp

/-- Witness for C7 (amended) at a concrete well-formed collection. -/
theorem C7_flaggen_steuern_schritte_witness :
    (Schritt.trainiere
        ∈ (mainAblauf [⟨some "a", some JVal.null⟩] false false).schritte
      ↔ false = false) ∧
    Schritt.testeModell
        ∈ (mainAblauf [⟨some "a", some JVal.null⟩] false false).schritte ∧
    (Schritt.exportiereGguf
        ∈ (mainAblauf [⟨some "a", some JVal.null⟩] false false).schritte
      ↔ (false = false ∧ false = false)) :=
  C7_flaggen_steuern_schritte [⟨some "a", some JVal.null⟩] false false rfl

/-- C8: on the empty (valid JSON) collection, `lade_daten` raises — printing
the sample entry indexes the first element unconditionally — and loading
returns normally only for non-empty collections. -/
theorem C8_leere_sammlung :
    lade_daten [] = Except.error PyFehler.indexError ∧
    ∀ roh, lade_daten roh = Except.ok () → roh ≠ [] := by
  refine ⟨rfl, ?_⟩
  intro roh h hnil
  subst hnil
  simp [lade_daten] at h

/-- Witness for C8 at a concrete non-empty collection. -/
theorem C8_leere_sammlung_witness :
    ([(⟨some "a", some JVal.null⟩ : RawEintrag)] : List RawEintrag) ≠ [] :=
  C8_leere_sammlung.2 [⟨some "a", some JVal.null⟩] rfl

/-- C10: the standalone converter returns exit code 0 whenever loading and
the export call both succeed, whatever the post-export directory listing
contains; the listing never changes the exit code. -/
theorem C10_listing_beeinflusst_exitcode_nicht :
    (∀ (listing : Option (List String)) (q : String),
      (convert_main (Except.ok ()) (Except.ok ()) listing q).exitCode = 0) ∧
    (∀ (lade konv : Except String Unit) (l₁ l₂ : Option (List String)) (q₁ q₂ : String),
      (convert_main lade konv l₁ q₁).exitCode = (convert_main lade konv l₂ q₂).exitCode) := by
  constructor
  · intro listing q; rfl
  · intro lade konv l₁ l₂ q₁ q₂
    cases lade with
    | error e => rfl
    | ok u =>
      cases konv with
      | error e => rfl
      | ok v => rfl

/-- C3 counterexample: a directory containing only `modell.Q4-K-M.txt` — a
file whose name contains `Q4-K-M` case-insensitively — still yields the
warning, because the search is restricted to names ending in `.gguf`; so
"if no such file exists it emits a warning" is false for files at large. -/
theorem C3_gegenbeispiel_nicht_gguf_datei :
    passtQuant "q4_k_m" "modell.Q4-K-M.txt" = true ∧
    exportiere_gguf (fun _ => ["modell.Q4-K-M.txt"]) "ausgabe" "q4_k_m"
      = ExportErgebnis.warnung := by
  decide

/-- C3 (amended): among the files of the gguf directory whose names end in
`.gguf`, if one exists whose upper-cased name contains the dash pattern of
the quantization label, the export step reports success with a matching
file's joined path; if none exists it reports only the warning — and in
either case it returns normally. -/
theorem C3_export_gguf_suche :
    ∀ (listdir : String → List String) (aus q : String),
      ((∃ d ∈ listdir (gguf_ordner aus), endetGguf d = true ∧ passtQuant q d = true) →
        ∃ d ∈ listdir (gguf_ordner aus), endetGguf d = true ∧ passtQuant q d = true ∧
          exportiere_gguf listdir aus q
            = ExportErgebnis.erfolg (gguf_ordner aus ++ "/" ++ d)) ∧
      ((∀ d ∈ listdir (gguf_ordner aus), ¬(endetGguf d = true ∧ passtQuant q d = true)) →
        exportiere_gguf listdir aus q = ExportErgebnis.warnung) := by
  intro listdir aus q
  constructor
  · rintro ⟨d, hd, hg, hp⟩
    have hd2 : d ∈ (listdir (gguf_ordner aus)).filter endetGguf :=
      List.mem_filter.mpr ⟨hd, hg⟩
    have hsome : (((listdir (gguf_ordner aus)).filter endetGguf).find?
        (passtQuant q)).isSome := by
      rw [List.find?_isSome]; exact ⟨d, hd2, hp⟩
    obtain ⟨d2, hfind⟩ := Option.isSome_iff_exists.mp hsome
    have hmem := List.mem_filter.mp (List.mem_of_find?_eq_some hfind)
    refine ⟨d2, hmem.1, hmem.2, List.find?_some hfind, ?_⟩
    simp only [exportiere_gguf]
    rw [hfind]
  · intro hall
    simp only [exportiere_gguf]
    have hnone : ((listdir (gguf_ordner aus)).filter endetGguf).find?
        (passtQuant q) = none := by
      rw [List.find?_eq_none]
      intro x hx hpx
      have hxm := List.mem_filter.mp hx
      exact hall x hxm.1 ⟨hxm.2, hpx⟩
    rw [hnone]

/-- Witness for C3 (amended): a directory holding one matching `.gguf`
file. -/
theorem C3_export_gguf_suche_witness :
    ∃ d ∈ (fun _ => ["phi-Q4-K-M.gguf"] : String → List String) (gguf_ordner "ausgabe"),
      endetGguf d = true ∧ passtQuant "q4_k_m" d = true ∧
      exportiere_gguf (fun _ => ["phi-Q4-K-M.gguf"]) "ausgabe" "q4_k_m"
        = ExportErgebnis.erfolg (gguf_ordner "ausgabe" ++ "/" ++ d) :=
  (C3_export_gguf_suche (fun _ => ["phi-Q4-K-M.gguf"]) "ausgabe" "q4_k_m").1
    ⟨"phi-Q4-K-M.gguf", by decide⟩

/-- C9: whenever the trainer's export step reports success, the reported file
comes from the listing of the `gguf_modell` subdirectory of the output
directory, its name ends in `.gguf`, it matches the quantization pattern, and
it is the first entry of that listing (in listing order) doing both. -/
theorem C9_export_waehlt_ersten_gguf_treffer :
    ∀ (listdir : String → List String) (aus q pfad : String),
      exportiere_gguf listdir aus q = ExportErgebnis.erfolg pfad →
      ∃ l₁ d l₂,
        listdir (aus ++ "/gguf_modell") = l₁ ++ d :: l₂ ∧
        endetGguf d = true ∧ passtQuant q d = true ∧
        pfad = aus ++ "/gguf_modell" ++ "/" ++ d ∧
        ∀ x ∈ l₁, ¬(endetGguf x = true ∧ passtQuant q x = true) := by
  intro listdir aus q pfad h
  simp only [exportiere_gguf] at h
  cases hf : ((listdir (gguf_ordner aus)).filter endetGguf).find? (passtQuant q) with
  | none => rw [hf] at h; simp at h
  | some d =>
    rw [hf] at h
    have hpfad : gguf_ordner aus ++ "/" ++ d = pfad := by
      injection h
    obtain ⟨l₁, l₂, hsplit, hg, hp, hall⟩ :=
      find?_filter_aufteilung (passtQuant q) endetGguf _ d hf
    exact ⟨l₁, d, l₂, hsplit, hg, hp, hpfad.symm, hall⟩

/-- Witness for C9 at a concrete listing with a non-matching file before the
matching one. -/
theorem C9_export_waehlt_ersten_gguf_treffer_witness :
    ∃ l₁ d l₂,
      (fun _ => ["unsloth.BF16.gguf", "phi-Q4-K-M.gguf"] : String → List String)
          ("ausgabe" ++ "/gguf_modell") = l₁ ++ d :: l₂ ∧
      endetGguf d = true ∧ passtQuant "q4_k_m" d = true ∧
      "ausgabe/gguf_modell/phi-Q4-K-M.gguf" = "ausgabe" ++ "/gguf_modell" ++ "/" ++ d ∧
      ∀ x ∈ l₁, ¬(endetGguf x = true ∧ passtQuant "q4_k_m" x = true) :=
  C9_export_waehlt_ersten_gguf_treffer
    (fun _ => ["unsloth.BF16.gguf", "phi-Q4-K-M.gguf"]) "ausgabe" "q4_k_m"
    "ausgabe/gguf_modell/phi-Q4-K-M.gguf" (by decide)


/-! # Round-trip of the serialized output (claim C6) -/

theorem skipWs_nicht_ws {c : Char} (h : isWsChar c = false) (cs : List Char) :
    skipWs (c :: cs) = c :: cs := by
  simp [skipWs, h]

theorem ziffern_eigenschaften :
    ∀ d, d < 10 →
      isDigitChar (Char.ofNat (48 + d)) = true ∧
      digitVal (Char.ofNat (48 + d)) = d := by
  decide

theorem isDigitChar_abgrenzung {c : Char} (h : isDigitChar c = true) :
    isWsChar c = false ∧ c ≠ 'n' ∧ c ≠ 't' ∧ c ≠ 'f' ∧ c ≠ '\"' ∧ c ≠ '[' ∧
      c ≠ '\x7b' ∧ c ≠ '-' ∧ c ≠ ']' ∧ c ≠ '\x7d' ∧ c ≠ ',' := by
  simp only [isDigitChar, Bool.and_eq_true, decide_eq_true_eq] at h
  have hs : ¬ c = ' ' := by rintro rfl; revert h; decide
  have ht : ¬ c = '\t' := by rintro rfl; revert h; decide
  have hn : ¬ c = '\n' := by rintro rfl; revert h; decide
  have hr : ¬ c = '\r' := by rintro rfl; revert h; decide
  refine ⟨by simp [isWsChar, hs, ht, hn, hr], ?_, ?_, ?_, ?_, ?_, ?_, ?_, ?_, ?_, ?_⟩ <;>
    rintro rfl <;> revert h <;> decide

theorem natChars_ziffern (n : Nat) : ∀ c ∈ natChars n, isDigitChar c = true := by
  intro c hc
  obtain ⟨d, hd, rfl⟩ := List.mem_map.mp hc
  have hd10 : d < 10 :=
    Nat.digits_lt_base (by norm_num) (List.mem_reverse.mp hd)
  exact (ziffern_eigenschaften d hd10).1

theorem natChars_nicht_leer {n : Nat} (h : n ≠ 0) : natChars n ≠ [] := by
  unfold natChars
  simp [Nat.digits_ne_nil_iff_ne_zero.mpr h]

theorem parseDigits_stopp {r : List Char} (h : kopfKeineZiffer r) (acc : Nat) :
    parseDigits r acc = (acc, r) := by
  cases r with
  | nil => rfl
  | cons c cs =>
    have hc : isDigitChar c = false := h
    simp [parseDigits, hc]

theorem parseDigits_lauf :
    ∀ (ds : List Char), (∀ c ∈ ds, isDigitChar c = true) →
      ∀ (rest : List Char), kopfKeineZiffer rest → ∀ acc,
        parseDigits (ds ++ rest) acc
          = (ds.foldl (fun a c => a * 10 + digitVal c) acc, rest) := by
  intro ds
  induction ds with
  | nil => intro _ rest hr acc; simpa using parseDigits_stopp hr acc
  | cons c cs ih =>
    intro hall rest hr acc
    have hc : isDigitChar c = true := hall c (List.mem_cons_self c cs)
    simp only [List.cons_append, parseDigits, hc, if_true, List.foldl_cons]
    exact ih (fun x hx => hall x (List.mem_cons_of_mem c hx)) rest hr _

theorem foldl_ziffernwert :
    ∀ (L : List Nat), (∀ d ∈ L, d < 10) → ∀ acc,
      ((L.reverse.map (fun d => Char.ofNat (48 + d))).foldl
          (fun a c => a * 10 + digitVal c) acc)
        = acc * 10 ^ L.length + Nat.ofDigits 10 L := by
  intro L
  induction L with
  | nil => intro _ acc; simp [Nat.ofDigits]
  | cons d L ih =>
    intro hall acc
    have hd10 : d < 10 := hall d (List.mem_cons_self d L)
    have hL : ∀ x ∈ L, x < 10 := fun x hx => hall x (List.mem_cons_of_mem d hx)
    simp only [List.reverse_cons, List.map_append, List.map_cons, List.map_nil,
      List.foldl_append, List.foldl_cons, List.foldl_nil]
    rw [ih hL acc, (ziffern_eigenschaften d hd10).2, Nat.ofDigits_cons]
    simp only [List.length_cons, pow_succ]
    ring

theorem natChars_wert (n : Nat) :
    ∀ rest, kopfKeineZiffer rest → ∀ acc,
      parseDigits (natChars n ++ rest) acc
        = (acc * 10 ^ (Nat.digits 10 n).length + n, rest) := by
  intro rest hr acc
  rw [parseDigits_lauf (natChars n) (natChars_ziffern n) rest hr acc]
  unfold natChars
  rw [foldl_ziffernwert (Nat.digits 10 n)
    (fun d hd => Nat.digits_lt_base (by norm_num) hd) acc]
  rw [Nat.ofDigits_digits]

theorem hexVal_hexChar : ∀ n, n < 16 → hexVal? (hexChar n) = some n := by
  decide

theorem parseStrBody_quote (cs : List Char) :
    parseStrBody ('\"' :: cs) = some ([], cs) := by
  rw [parseStrBody.eq_def]; simp

theorem parseStrBody_unesc {e c2 : Char} (he : e ≠ 'u')
    (hu : unescChar? e = some c2) (cs : List Char) :
    parseStrBody ('\\' :: e :: cs)
      = match parseStrBody cs with
        | some (s, r) => some (c2 :: s, r)
        | none => none := by
  rw [parseStrBody.eq_def]; simp [he, hu]

theorem parseStrBody_u {h1 h2 h3 h4 : Char} {a b c2 d : Nat}
    (hv1 : hexVal? h1 = some a) (hv2 : hexVal? h2 = some b)
    (hv3 : hexVal? h3 = some c2) (hv4 : hexVal? h4 = some d) (cs : List Char) :
    parseStrBody ('\\' :: 'u' :: h1 :: h2 :: h3 :: h4 :: cs)
      = match parseStrBody cs with
        | some (s, r) => some (Char.ofNat (((a * 16 + b) * 16 + c2) * 16 + d) :: s, r)
        | none => none := by
  rw [parseStrBody.eq_def]; simp [hv1, hv2, hv3, hv4]

theorem parseStrBody_klar {c : Char} (hq : c ≠ '\"') (hb : c ≠ '\\')
    (cs : List Char) :
    parseStrBody (c :: cs)
      = match parseStrBody cs with
        | some (s, r) => some (c :: s, r)
        | none => none := by
  rw [parseStrBody.eq_def]; simp [hq, hb]

theorem parseStrBody_escape :
    ∀ (cs rest : List Char),
      parseStrBody (jsonEscape cs ++ '\"' :: rest) = some (cs, rest) := by
  intro cs
  induction cs with
  | nil => intro rest; simpa [jsonEscape] using parseStrBody_quote rest
  | cons c cs ih =>
    intro rest
    have hesc : jsonEscape (c :: cs) = escChar c ++ jsonEscape cs := by
      simp [jsonEscape]
    rw [hesc, List.append_assoc]
    by_cases hq : c = '\"'
    · subst hq
      rw [show escChar '\"' = ['\\', '\"'] from rfl, List.cons_append,
        List.cons_append, List.nil_append,
        parseStrBody_unesc (by decide) (by decide : unescChar? '\"' = some '\"'),
        ih rest]
    · by_cases hb : c = '\\'
      · subst hb
        rw [show escChar '\\' = ['\\', '\\'] from rfl, List.cons_append,
          List.cons_append, List.nil_append,
          parseStrBody_unesc (by decide) (by decide : unescChar? '\\' = some '\\'),
          ih rest]
      · by_cases h3 : c = '\x08'
        · subst h3
          rw [show escChar '\x08' = ['\\', 'b'] from rfl, List.cons_append,
            List.cons_append, List.nil_append,
            parseStrBody_unesc (by decide) (by decide : unescChar? 'b' = some '\x08'),
            ih rest]
        · by_cases h4 : c = '\x0c'
          · subst h4
            rw [show escChar '\x0c' = ['\\', 'f'] from rfl, List.cons_append,
              List.cons_append, List.nil_append,
              parseStrBody_unesc (by decide) (by decide : unescChar? 'f' = some '\x0c'),
              ih rest]
          · by_cases h5 : c = '\n'
            · subst h5
              rw [show escChar '\n' = ['\\', 'n'] from rfl, List.cons_append,
                List.cons_append, List.nil_append,
                parseStrBody_unesc (by decide) (by decide : unescChar? 'n' = some '\n'),
                ih rest]
            · by_cases h6 : c = '\r'
              · subst h6
                rw [show escChar '\r' = ['\\', 'r'] from rfl, List.cons_append,
                  List.cons_append, List.nil_append,
                  parseStrBody_unesc (by decide) (by decide : unescChar? 'r' = some '\r'),
                  ih rest]
              · by_cases h7 : c = '\t'
                · subst h7
                  rw [show escChar '\t' = ['\\', 't'] from rfl, List.cons_append,
                    List.cons_append, List.nil_append,
                    parseStrBody_unesc (by decide) (by decide : unescChar? 't' = some '\t'),
                    ih rest]
                · by_cases h8 : c.toNat < 32
                  · have hesc2 : escChar c
                        = ['\\', 'u', '0', '0', hexChar (c.toNat / 16),
                           hexChar (c.toNat % 16)] := by
                      simp [escChar, hq, hb, h3, h4, h5, h6, h7, h8]
                    have hv1 := hexVal_hexChar (c.toNat / 16) (by omega)
                    have hv2 := hexVal_hexChar (c.toNat % 16) (by omega)
                    rw [hesc2, List.cons_append, List.cons_append, List.cons_append,
                      List.cons_append, List.cons_append, List.cons_append,
                      List.nil_append,
                      parseStrBody_u (by decide : hexVal? '0' = some 0)
                        (by decide : hexVal? '0' = some 0) hv1 hv2,
                      ih rest]
                    have harith : ((0 * 16 + 0) * 16 + c.toNat / 16) * 16 + c.toNat % 16
                        = c.toNat := by omega
                    rw [harith, Char.ofNat_toNat]
                  · have hesc2 : escChar c = [c] := by
                      simp [escChar, hq, hb, h3, h4, h5, h6, h7, h8]
                    rw [hesc2, List.cons_append, List.nil_append,
                      parseStrBody_klar hq hb, ih rest]

theorem parseVal_cons (fuel : Nat) (c : Char) (rest : List Char) :
    parseVal (fuel + 1) (c :: rest)
      = (if c = 'n' then
          match stripPre ['u', 'l', 'l'] rest with
          | some rest2 => some (JVal.null, rest2)
          | none => none
        else if c = 't' then
          match stripPre ['r', 'u', 'e'] rest with
          | some rest2 => some (JVal.bool true, rest2)
          | none => none
        else if c = 'f' then
          match stripPre ['a', 'l', 's', 'e'] rest with
          | some rest2 => some (JVal.bool false, rest2)
          | none => none
        else if c = '\"' then
          match parseStrBody rest with
          | some (s, rest2) => some (JVal.str ⟨s⟩, rest2)
          | none => none
        else if c = '[' then
          match skipWs rest with
          | ']' :: rest2 => some (JVal.arr [], rest2)
          | rest1 =>
            match parseElems fuel rest1 with
            | some (xs, rest2) =>
              match skipWs rest2 with
              | ']' :: rest3 => some (JVal.arr xs, rest3)
              | _ => none
            | none => none
        else if c = '\x7b' then
          match skipWs rest with
          | '\x7d' :: rest2 => some (JVal.obj [], rest2)
          | rest1 =>
            match parseMembers fuel rest1 with
            | some (kvs, rest2) =>
              match skipWs rest2 with
              | '\x7d' :: rest3 => some (JVal.obj kvs, rest3)
              | _ => none
            | none => none
        else if c = '-' then
          match rest with
          | [] => none
          | d :: rest2 =>
            if isDigitChar d then
              match parseDigits rest2 (digitVal d) with
              | (n, rest3) => some (JVal.int (-(n : Int)), rest3)
            else none
        else if isDigitChar c then
          match parseDigits rest (digitVal c) with
          | (n, rest2) => some (JVal.int (n : Int), rest2)
        else none) := by
  rfl

theorem parseElems_eq (fuel : Nat) (cs : List Char) :
    parseElems (fuel + 1) cs
      = (match parseVal fuel cs with
        | some (v, rest) =>
          match rest with
          | ',' :: rest2 =>
            match parseElems fuel (skipWs rest2) with
            | some (xs, rest3) => some (v :: xs, rest3)
            | none => none
          | _ => some ([v], rest)
        | none => none) := by
  rfl

theorem parseMembers_eq (fuel : Nat) (cs : List Char) :
    parseMembers (fuel + 1) cs
      = (match cs with
        | '\"' :: cs1 =>
          match parseStrBody cs1 with
          | some (k, cs2) =>
            match skipWs cs2 with
            | ':' :: cs3 =>
              match parseVal fuel (skipWs cs3) with
              | some (v, rest) =>
                match rest with
                | ',' :: rest2 =>
                  match parseMembers fuel (skipWs rest2) with
                  | some (kvs, rest3) => some ((⟨k⟩, v) :: kvs, rest3)
                  | none => none
                | _ => some ([(⟨k⟩, v)], rest)
              | none => none
            | _ => none
          | none => none
        | _ => none) := by
  rfl

theorem parseVal_null (fuel : Nat) (rest : List Char) :
    parseVal (fuel + 1) ('n' :: 'u' :: 'l' :: 'l' :: rest)
      = some (JVal.null, rest) := by
  rw [parseVal_cons]; simp [stripPre]

theorem parseVal_true (fuel : Nat) (rest : List Char) :
    parseVal (fuel + 1) ('t' :: 'r' :: 'u' :: 'e' :: rest)
      = some (JVal.bool true, rest) := by
  rw [parseVal_cons]; simp [stripPre]

theorem parseVal_false (fuel : Nat) (rest : List Char) :
    parseVal (fuel + 1) ('f' :: 'a' :: 'l' :: 's' :: 'e' :: rest)
      = some (JVal.bool false, rest) := by
  rw [parseVal_cons]; simp [stripPre]

theorem parseVal_str (fuel : Nat) (s : String) (rest : List Char) :
    parseVal (fuel + 1) (json_dumps (JVal.str s) ++ rest)
      = some (JVal.str s, rest) := by
  rw [show json_dumps (JVal.str s) = '\"' :: (jsonEscape s.data ++ ['\"']) from rfl,
    List.cons_append, List.append_assoc, List.singleton_append]
  rw [parseVal_cons]
  simp [parseStrBody_escape]

theorem parseDigits_natChars {m : Nat} {c : Char} {cs : List Char}
    (hnc : natChars m = c :: cs) (rest : List Char) (hr : kopfKeineZiffer rest) :
    parseDigits (cs ++ rest) (digitVal c) = (m, rest) := by
  have h0 := natChars_wert m rest hr 0
  rw [hnc, List.cons_append] at h0
  have hcdig : isDigitChar c = true := by
    apply natChars_ziffern m
    rw [hnc]; exact List.mem_cons_self c cs
  rw [parseDigits, if_pos hcdig] at h0
  simpa using h0

theorem parseVal_int (fuel : Nat) (n : Int) (rest : List Char)
    (hr : kopfKeineZiffer rest) :
    parseVal (fuel + 1) (json_dumps (JVal.int n) ++ rest)
      = some (JVal.int n, rest) := by
  cases n with
  | ofNat m =>
    by_cases hm : m = 0
    · subst hm
      rw [show json_dumps (JVal.int (Int.ofNat 0)) = ['0'] from rfl,
        List.singleton_append, parseVal_cons]
      simp [parseDigits_stopp hr, digitVal,
        show isDigitChar '0' = true from by decide]
    · rw [show json_dumps (JVal.int (Int.ofNat m)) = intChars (Int.ofNat m) from rfl,
        show intChars (Int.ofNat m) = natChars m by simp [intChars, hm]]
      cases hnc : natChars m with
      | nil => exact absurd hnc (natChars_nicht_leer hm)
      | cons c cs =>
        have hcdig : isDigitChar c = true := by
          apply natChars_ziffern m
          rw [hnc]; exact List.mem_cons_self c cs
        have hdis := isDigitChar_abgrenzung hcdig
        rw [List.cons_append, parseVal_cons,
          if_neg hdis.2.1, if_neg hdis.2.2.1, if_neg hdis.2.2.2.1,
          if_neg hdis.2.2.2.2.1, if_neg hdis.2.2.2.2.2.1,
          if_neg hdis.2.2.2.2.2.2.1, if_neg hdis.2.2.2.2.2.2.2.1,
          if_pos hcdig, parseDigits_natChars hnc rest hr]
        rfl
  | negSucc m =>
    rw [show json_dumps (JVal.int (Int.negSucc m)) = '-' :: natChars (m + 1) from rfl]
    cases hnc : natChars (m + 1) with
    | nil => exact absurd hnc (natChars_nicht_leer (Nat.succ_ne_zero m))
    | cons c cs =>
      have hcdig : isDigitChar c = true := by
        apply natChars_ziffern (m + 1)
        rw [hnc]; exact List.mem_cons_self c cs
      rw [List.cons_append, List.cons_append, parseVal_cons]
      simp only [show ('-' : Char) ≠ 'n' by decide, show ('-' : Char) ≠ 't' by decide,
        show ('-' : Char) ≠ 'f' by decide, show ('-' : Char) ≠ '\"' by decide,
        show ('-' : Char) ≠ '[' by decide, show ('-' : Char) ≠ '\x7b' by decide,
        if_neg, if_false, ite_false, ite_true, if_pos rfl]
      rw [if_pos hcdig, parseDigits_natChars hnc rest hr]
      simp [Int.negSucc_eq]

theorem json_dumps_kopf (v : JVal) :
    ∃ c cs, json_dumps v = c :: cs ∧ isWsChar c = false ∧ c ≠ ']' ∧ c ≠ '\x7d' := by
  cases v with
  | null => refine ⟨'n', _, rfl, ?_, ?_, ?_⟩ <;> decide
  | bool b =>
    cases b with
    | true => refine ⟨'t', _, rfl, ?_, ?_, ?_⟩ <;> decide
    | false => refine ⟨'f', _, rfl, ?_, ?_, ?_⟩ <;> decide
  | int n =>
    cases n with
    | ofNat m =>
      by_cases hm : m = 0
      · subst hm
        refine ⟨'0', [], ?_, ?_, ?_, ?_⟩ <;> decide
      · rw [show json_dumps (JVal.int (Int.ofNat m)) = intChars (Int.ofNat m) from rfl,
          show intChars (Int.ofNat m) = natChars m by simp [intChars, hm]]
        cases hnc : natChars m with
        | nil => exact absurd hnc (natChars_nicht_leer hm)
        | cons c cs =>
          have hcdig : isDigitChar c = true := by
            apply natChars_ziffern m
            rw [hnc]; exact List.mem_cons_self c cs
          have hdis := isDigitChar_abgrenzung hcdig
          exact ⟨c, cs, rfl, hdis.1, hdis.2.2.2.2.2.2.2.2.1,
            hdis.2.2.2.2.2.2.2.2.2.1⟩
    | negSucc m =>
      refine ⟨'-', _, rfl, ?_, ?_, ?_⟩ <;> decide
  | str s => refine ⟨'\"', _, rfl, ?_, ?_, ?_⟩ <;> decide
  | arr xs => refine ⟨'[', _, rfl, ?_, ?_, ?_⟩ <;> decide
  | obj kvs => refine ⟨'\x7b', _, rfl, ?_, ?_, ?_⟩ <;> decide

theorem skipWs_dumps (v : JVal) (r : List Char) :
    skipWs (json_dumps v ++ r) = json_dumps v ++ r := by
  obtain ⟨c, cs, hv, hws, _, _⟩ := json_dumps_kopf v
  rw [hv, List.cons_append]
  exact skipWs_nicht_ws hws _

theorem jsize_pos (v : JVal) : 1 ≤ jsize v := by
  cases v <;> simp [jsize]

theorem lsize_pos {xs : List JVal} (h : xs ≠ []) : 1 ≤ lsize xs := by
  cases xs with
  | nil => exact absurd rfl h
  | cons x xs2 => simp [lsize]; omega

theorem msize_pos {kvs : List (String × JVal)} (h : kvs ≠ []) : 1 ≤ msize kvs := by
  cases kvs with
  | nil => exact absurd rfl h
  | cons kv kvs2 => obtain ⟨k, v⟩ := kv; simp [msize]; omega

theorem jsonDumpsElems_struktur (x : JVal) (xs2 : List JVal) :
    ∃ T, jsonDumpsElems (x :: xs2) = json_dumps x ++ T := by
  cases xs2 with
  | nil => exact ⟨[], by simp [jsonDumpsElems]⟩
  | cons y ys => exact ⟨',' :: ' ' :: jsonDumpsElems (y :: ys), rfl⟩

theorem skipWs_dumpsElems (x : JVal) (xs2 : List JVal) (r : List Char) :
    skipWs (jsonDumpsElems (x :: xs2) ++ r) = jsonDumpsElems (x :: xs2) ++ r := by
  obtain ⟨T, hT⟩ := jsonDumpsElems_struktur x xs2
  rw [hT, List.append_assoc, skipWs_dumps, ← List.append_assoc]

theorem jsonDumpsMembers_struktur (k : String) (v : JVal)
    (kvs2 : List (String × JVal)) :
    ∃ T, jsonDumpsMembers ((k, v) :: kvs2)
      = '\"' :: (jsonEscape k.data ++ '\"' :: ':' :: ' ' :: (json_dumps v ++ T)) := by
  cases kvs2 with
  | nil =>
    refine ⟨[], ?_⟩
    simp [jsonDumpsMembers]
  | cons kv kvs3 =>
    refine ⟨',' :: ' ' :: jsonDumpsMembers (kv :: kvs3), ?_⟩
    rw [show jsonDumpsMembers ((k, v) :: kv :: kvs3)
        = ('\"' :: (jsonEscape k.data ++ '\"' :: ':' :: ' ' :: json_dumps v))
          ++ ',' :: ' ' :: jsonDumpsMembers (kv :: kvs3) from rfl]
    simp

theorem skipWs_dumpsMembers (k : String) (v : JVal)
    (kvs2 : List (String × JVal)) (r : List Char) :
    skipWs (jsonDumpsMembers ((k, v) :: kvs2) ++ r)
      = jsonDumpsMembers ((k, v) :: kvs2) ++ r := by
  obtain ⟨T, hT⟩ := jsonDumpsMembers_struktur k v kvs2
  rw [hT, List.cons_append]
  exact skipWs_nicht_ws (by decide) _

theorem parseMembers_quote (fuel : Nat) (cs1 : List Char) :
    parseMembers (fuel + 1) ('\"' :: cs1)
      = (match parseStrBody cs1 with
        | some (k, cs2) =>
          match skipWs cs2 with
          | ':' :: cs3 =>
            match parseVal fuel (skipWs cs3) with
            | some (v, rest) =>
              match rest with
              | ',' :: rest2 =>
                match parseMembers fuel (skipWs rest2) with
                | some (kvs, rest3) => some ((⟨k⟩, v) :: kvs, rest3)
                | none => none
              | _ => some ([(⟨k⟩, v)], rest)
            | none => none
          | _ => none
        | none => none) := by
  rw [parseMembers_eq]
  rfl

theorem parse_dumps_fuel :
    ∀ fuel : Nat,
      (∀ v rest, jsize v ≤ fuel → kopfKeineZiffer rest →
        parseVal fuel (json_dumps v ++ rest) = some (v, rest)) ∧
      (∀ xs rest, xs ≠ [] → lsize xs ≤ fuel → kopfKeineZiffer rest →
        kopfKeinKomma rest →
        parseElems fuel (jsonDumpsElems xs ++ rest) = some (xs, rest)) ∧
      (∀ kvs rest, kvs ≠ [] → msize kvs ≤ fuel → kopfKeineZiffer rest →
        kopfKeinKomma rest →
        parseMembers fuel (jsonDumpsMembers kvs ++ rest) = some (kvs, rest)) := by
  intro fuel
  induction fuel with
  | zero =>
    refine ⟨?_, ?_, ?_⟩
    · intro v _ hsz _
      exact absurd hsz (by have := jsize_pos v; omega)
    · intro xs _ hne hsz _ _
      exact absurd hsz (by have := lsize_pos hne; omega)
    · intro kvs _ hne hsz _ _
      exact absurd hsz (by have := msize_pos hne; omega)
  | succ fuel ih =>
    obtain ⟨ihV, ihE, ihM⟩ := ih
    refine ⟨?_, ?_, ?_⟩
    · intro v rest hsz hr
      cases v with
      | null => exact parseVal_null fuel rest
      | bool b =>
        cases b with
        | true => exact parseVal_true fuel rest
        | false => exact parseVal_false fuel rest
      | int n => exact parseVal_int fuel n rest hr
      | str s => exact parseVal_str fuel s rest
      | arr xs =>
        cases xs with
        | nil =>
          rw [show json_dumps (JVal.arr []) = ['[', ']'] from rfl,
            List.cons_append, List.singleton_append, parseVal_cons]
          simp [skipWs, show isWsChar ']' = false from by decide]
        | cons x xs2 =>
          rw [show json_dumps (JVal.arr (x :: xs2))
              = '[' :: (jsonDumpsElems (x :: xs2) ++ [']']) from rfl,
            List.cons_append, List.append_assoc, List.singleton_append,
            parseVal_cons,
            if_neg (by decide : ¬('[' : Char) = 'n'),
            if_neg (by decide : ¬('[' : Char) = 't'),
            if_neg (by decide : ¬('[' : Char) = 'f'),
            if_neg (by decide : ¬('[' : Char) = '\"'),
            if_pos rfl,
            skipWs_dumpsElems]
          have hsz2 : lsize (x :: xs2) ≤ fuel := by
            simp only [jsize] at hsz; omega
          have hE := ihE (x :: xs2) (']' :: rest) (by simp) hsz2
            (show isDigitChar ']' = false from by decide)
            (show (']' : Char) ≠ ',' from by decide)
          obtain ⟨c0, cs0, hx0, hws0, hbr0, hbc0⟩ := json_dumps_kopf x
          obtain ⟨T, hT⟩ := jsonDumpsElems_struktur x xs2
          split
          next rest2 heq =>
            rw [hT, hx0, List.cons_append, List.cons_append] at heq
            injection heq with h1 _
            exact absurd h1 hbr0
          next =>
            rw [hE]
            simp [skipWs, show isWsChar ']' = false from by decide]
      | obj kvs =>
        cases kvs with
        | nil =>
          rw [show json_dumps (JVal.obj []) = ['\x7b', '\x7d'] from rfl,
            List.cons_append, List.singleton_append, parseVal_cons]
          simp [skipWs, show isWsChar '\x7d' = false from by decide]
        | cons kv kvs2 =>
          obtain ⟨k, v⟩ := kv
          rw [show json_dumps (JVal.obj ((k, v) :: kvs2))
              = '\x7b' :: (jsonDumpsMembers ((k, v) :: kvs2) ++ ['\x7d']) from rfl,
            List.cons_append, List.append_assoc, List.singleton_append,
            parseVal_cons,
            if_neg (by decide : ¬('\x7b' : Char) = 'n'),
            if_neg (by decide : ¬('\x7b' : Char) = 't'),
            if_neg (by decide : ¬('\x7b' : Char) = 'f'),
            if_neg (by decide : ¬('\x7b' : Char) = '\"'),
            if_neg (by decide : ¬('\x7b' : Char) = '['),
            if_pos rfl,
            skipWs_dumpsMembers]
          have hsz2 : msize ((k, v) :: kvs2) ≤ fuel := by
            simp only [jsize] at hsz; omega
          have hM := ihM ((k, v) :: kvs2) ('\x7d' :: rest) (by simp) hsz2
            (show isDigitChar '\x7d' = false from by decide)
            (show ('\x7d' : Char) ≠ ',' from by decide)
          obtain ⟨T, hT⟩ := jsonDumpsMembers_struktur k v kvs2
          split
          next rest2 heq =>
            rw [hT, List.cons_append] at heq
            injection heq with h1 _
            exact absurd h1 (by decide)
          next =>
            rw [hM]
            simp [skipWs, show isWsChar '\x7d' = false from by decide]
    · intro xs rest hne hsz hr hkk
      cases xs with
      | nil => exact absurd rfl hne
      | cons x xs2 =>
        cases xs2 with
        | nil =>
          rw [show jsonDumpsElems [x] = json_dumps x from rfl, parseElems_eq]
          have hjx : jsize x ≤ fuel := by simp only [lsize] at hsz; omega
          rw [ihV x rest hjx hr]
          cases rest with
          | nil => rfl
          | cons c t =>
            have hc : c ≠ ',' := hkk
            split
            next v2 rest2 heq =>
              injection heq with hpair
              injection hpair with hv2 hrest2
              subst hv2; subst hrest2
              split
              next rest3 heq2 =>
                injection heq2 with h1 _
                exact absurd h1 hc
              next => rfl
            next heq => exact absurd heq (by simp)
        | cons y ys =>
          rw [show jsonDumpsElems (x :: y :: ys)
              = json_dumps x ++ ',' :: ' ' :: jsonDumpsElems (y :: ys) from rfl,
            List.append_assoc, List.cons_append, List.cons_append, parseElems_eq]
          have hjx : jsize x ≤ fuel := by simp only [lsize] at hsz; omega
          rw [ihV x (',' :: ' ' :: (jsonDumpsElems (y :: ys) ++ rest)) hjx
            (show isDigitChar ',' = false from by decide)]
          have hy : skipWs (' ' :: (jsonDumpsElems (y :: ys) ++ rest))
              = jsonDumpsElems (y :: ys) ++ rest := by
            rw [show skipWs (' ' :: (jsonDumpsElems (y :: ys) ++ rest))
                = skipWs (jsonDumpsElems (y :: ys) ++ rest) from by
                  simp [skipWs, isWsChar],
              skipWs_dumpsElems]
          have hsz3 : lsize (y :: ys) ≤ fuel := by
            simp only [lsize] at hsz ⊢; omega
          simp [hy, ihE (y :: ys) rest (by simp) hsz3 hr hkk]
    · intro kvs rest hne hsz hr hkk
      cases kvs with
      | nil => exact absurd rfl hne
      | cons kv kvs2 =>
        obtain ⟨k, v⟩ := kv
        cases kvs2 with
        | nil =>
          rw [show jsonDumpsMembers [(k, v)]
              = '\"' :: (jsonEscape k.data ++ '\"' :: ':' :: ' ' :: json_dumps v)
                from rfl,
            List.cons_append, parseMembers_quote]
          have hkey : parseStrBody
              ((jsonEscape k.data ++ '\"' :: ':' :: ' ' :: json_dumps v) ++ rest)
              = some (k.data, ':' :: ' ' :: (json_dumps v ++ rest)) := by
            rw [List.append_assoc, List.cons_append, List.cons_append,
              List.cons_append]
            exact parseStrBody_escape k.data _
          have hjv : jsize v ≤ fuel := by simp only [msize] at hsz; omega
          have hsw1 : skipWs (':' :: ' ' :: (json_dumps v ++ rest))
              = ':' :: ' ' :: (json_dumps v ++ rest) :=
            skipWs_nicht_ws (by decide) _
          have hsw2 : skipWs (' ' :: (json_dumps v ++ rest))
              = json_dumps v ++ rest := by
            rw [show skipWs (' ' :: (json_dumps v ++ rest))
                = skipWs (json_dumps v ++ rest) from by simp [skipWs, isWsChar],
              skipWs_dumps]
          rw [hkey]
          simp only [hsw1, hsw2, ihV v rest hjv hr]
          cases rest with
          | nil => rfl
          | cons c t =>
            have hc : c ≠ ',' := hkk
            split
            next rest2 heq =>
              injection heq with h1 _
              exact absurd h1 hc
            next => rfl
        | cons kv2 kvs3 =>
          rw [show jsonDumpsMembers ((k, v) :: kv2 :: kvs3)
              = ('\"' :: (jsonEscape k.data ++ '\"' :: ':' :: ' ' :: json_dumps v))
                ++ ',' :: ' ' :: jsonDumpsMembers (kv2 :: kvs3) from rfl,
            List.cons_append, List.append_assoc, List.cons_append, parseMembers_quote]
          have hkey : parseStrBody
              ((jsonEscape k.data ++ '\"' :: ':' :: ' ' :: json_dumps v)
                ++ ',' :: ' ' :: (jsonDumpsMembers (kv2 :: kvs3) ++ rest))
              = some (k.data, ':' :: ' ' :: (json_dumps v
                  ++ ',' :: ' ' :: (jsonDumpsMembers (kv2 :: kvs3) ++ rest))) := by
            rw [List.append_assoc, List.cons_append, List.cons_append,
              List.cons_append]
            exact parseStrBody_escape k.data _
          have hjv : jsize v ≤ fuel := by simp only [msize] at hsz; omega
          have hsw1 : skipWs (':' :: ' ' :: (json_dumps v
              ++ ',' :: ' ' :: (jsonDumpsMembers (kv2 :: kvs3) ++ rest)))
              = ':' :: ' ' :: (json_dumps v
                ++ ',' :: ' ' :: (jsonDumpsMembers (kv2 :: kvs3) ++ rest)) :=
            skipWs_nicht_ws (by decide) _
          have hsw2 : skipWs (' ' :: (json_dumps v
              ++ ',' :: ' ' :: (jsonDumpsMembers (kv2 :: kvs3) ++ rest)))
              = json_dumps v ++ ',' :: ' ' :: (jsonDumpsMembers (kv2 :: kvs3) ++ rest) := by
            rw [show skipWs (' ' :: (json_dumps v
                ++ ',' :: ' ' :: (jsonDumpsMembers (kv2 :: kvs3) ++ rest)))
                = skipWs (json_dumps v
                  ++ ',' :: ' ' :: (jsonDumpsMembers (kv2 :: kvs3) ++ rest)) from by
                  simp [skipWs, isWsChar],
              skipWs_dumps]
          have hsw3 : skipWs (' ' :: (jsonDumpsMembers (kv2 :: kvs3) ++ rest))
              = jsonDumpsMembers (kv2 :: kvs3) ++ rest := by
            obtain ⟨k2, v2⟩ := kv2
            rw [show skipWs (' ' :: (jsonDumpsMembers ((k2, v2) :: kvs3) ++ rest))
                = skipWs (jsonDumpsMembers ((k2, v2) :: kvs3) ++ rest) from by
                  simp [skipWs, isWsChar],
              skipWs_dumpsMembers]
          have hsz3 : msize (kv2 :: kvs3) ≤ fuel := by
            simp only [msize] at hsz ⊢
            obtain ⟨k2, v2⟩ := kv2
            simp only [msize] at hsz ⊢
            omega
          have hV := ihV v (',' :: ' ' :: (jsonDumpsMembers (kv2 :: kvs3) ++ rest))
            hjv (show isDigitChar ',' = false from by decide)
          have hM := ihM (kv2 :: kvs3) rest (by simp) hsz3 hr hkk
          simp only [List.append_assoc, List.cons_append]
          simp only [List.append_assoc, List.cons_append] at hkey
          rw [hkey]
          simp only [hsw1, hsw2, hsw3, hV, hM]

theorem intChars_nicht_leer (n : Int) : intChars n ≠ [] := by
  cases n with
  | ofNat m =>
    by_cases hm : m = 0
    · subst hm; simp [intChars]
    · simp only [intChars, if_neg hm]
      exact natChars_nicht_leer hm
  | negSucc m => simp [intChars]

theorem groessen_schranke :
    ∀ fuel : Nat,
      (∀ v, jsize v ≤ fuel → jsize v ≤ (json_dumps v).length) ∧
      (∀ xs, lsize xs ≤ fuel → lsize xs ≤ (jsonDumpsElems xs).length + 1) ∧
      (∀ kvs, msize kvs ≤ fuel → msize kvs ≤ (jsonDumpsMembers kvs).length + 1) := by
  intro fuel
  induction fuel with
  | zero =>
    refine ⟨?_, ?_, ?_⟩
    · intro v hsz
      exact absurd hsz (by have := jsize_pos v; omega)
    · intro xs hsz
      cases xs with
      | nil => simp [lsize]
      | cons x xs2 =>
        exact absurd hsz
          (by have := lsize_pos (show x :: xs2 ≠ [] by simp); omega)
    · intro kvs hsz
      cases kvs with
      | nil => simp [msize]
      | cons kv kvs2 =>
        exact absurd hsz
          (by have := msize_pos (show kv :: kvs2 ≠ [] by simp); omega)
  | succ fuel ih =>
    obtain ⟨ihV, ihE, ihM⟩ := ih
    refine ⟨?_, ?_, ?_⟩
    · intro v hsz
      cases v with
      | null => simp [jsize, json_dumps]
      | bool b => cases b <;> simp [jsize, json_dumps]
      | int n =>
        have := intChars_nicht_leer n
        have hlen : 1 ≤ (intChars n).length := by
          cases hic : intChars n with
          | nil => exact absurd hic this
          | cons c cs => simp
        simp only [jsize, json_dumps]
        omega
      | str s => simp [jsize, json_dumps]
      | arr xs =>
        have hx : lsize xs ≤ fuel := by simp only [jsize] at hsz; omega
        have := ihE xs hx
        simp only [jsize, json_dumps, List.length_cons, List.length_append,
          List.length_singleton]
        omega
      | obj kvs =>
        have hx : msize kvs ≤ fuel := by simp only [jsize] at hsz; omega
        have := ihM kvs hx
        simp only [jsize, json_dumps, List.length_cons, List.length_append,
          List.length_singleton]
        omega
    · intro xs hsz
      cases xs with
      | nil => simp [lsize]
      | cons x xs2 =>
        cases xs2 with
        | nil =>
          have hx : jsize x ≤ fuel := by simp only [lsize] at hsz; omega
          have := ihV x hx
          simp only [lsize, jsonDumpsElems]
          omega
        | cons y ys =>
          have hx : jsize x ≤ fuel := by simp only [lsize] at hsz; omega
          have hy : lsize (y :: ys) ≤ fuel := by
            simp only [lsize] at hsz ⊢; omega
          have h1 := ihV x hx
          have h2 := ihE (y :: ys) hy
          rw [show jsonDumpsElems (x :: y :: ys)
              = json_dumps x ++ ',' :: ' ' :: jsonDumpsElems (y :: ys) from rfl]
          simp only [lsize, List.length_append, List.length_cons] at h2 ⊢
          omega
    · intro kvs hsz
      cases kvs with
      | nil => simp [msize]
      | cons kv kvs2 =>
        obtain ⟨k, v⟩ := kv
        cases kvs2 with
        | nil =>
          have hv : jsize v ≤ fuel := by simp only [msize] at hsz; omega
          have := ihV v hv
          rw [show jsonDumpsMembers [(k, v)]
              = '\"' :: (jsonEscape k.data ++ '\"' :: ':' :: ' ' :: json_dumps v)
                from rfl]
          simp only [msize, List.length_cons, List.length_append]
          omega
        | cons kv2 kvs3 =>
          have hv : jsize v ≤ fuel := by simp only [msize] at hsz; omega
          have hr : msize (kv2 :: kvs3) ≤ fuel := by
            simp only [msize] at hsz ⊢
            obtain ⟨k2, v2⟩ := kv2
            simp only [msize] at hsz ⊢
            omega
          have h1 := ihV v hv
          have h2 := ihM (kv2 :: kvs3) hr
          rw [show jsonDumpsMembers ((k, v) :: kv2 :: kvs3)
              = ('\"' :: (jsonEscape k.data ++ '\"' :: ':' :: ' ' :: json_dumps v))
                ++ ',' :: ' ' :: jsonDumpsMembers (kv2 :: kvs3) from rfl]
          simp only [msize, List.length_cons, List.length_append] at h2 ⊢
          omega

theorem json_loads_dumps (v : JVal) : json_loads (jsonDumpsStr v) = some v := by
  have hb := (groessen_schranke (jsize v)).1 v le_rfl
  have hp := (parse_dumps_fuel ((json_dumps v).length + 1)).1 v []
    (by omega) trivial
  rw [List.append_nil] at hp
  have hsk : skipWs (json_dumps v) = json_dumps v := by
    have h := skipWs_dumps v []
    simpa using h
  show (match parseVal ((json_dumps v).length + 1) (skipWs (json_dumps v)) with
    | some (w, rest) => if skipWs rest = [] then some w else none
    | none => none) = some v
  rw [hsk, hp]
  simp [skipWs]

theorem string_data_append (a b : String) : (a ++ b).data = a.data ++ b.data :=
  rfl

theorem ausgabeSegment_eq (b : Beispiel) :
    ausgabeSegment b = json_dumps b.output := by
  have hdata : (formatiere_prompt b).data
      = ("### Eingabe: ".data ++ b.input.data ++ "\n### Ausgabe: ".data)
        ++ (json_dumps b.output ++ "<|endoftext|>".data) := by
    show ("### Eingabe: " ++ b.input ++ "\n### Ausgabe: "
        ++ jsonDumpsStr b.output ++ "<|endoftext|>").data = _
    rw [string_data_append, string_data_append, string_data_append,
      string_data_append]
    simp [jsonDumpsStr]
  have hk : "### Eingabe: ".length + b.input.length + "\n### Ausgabe: ".length
      = ("### Eingabe: ".data ++ b.input.data ++ "\n### Ausgabe: ".data).length := by
    rw [List.length_append, List.length_append]
    rfl
  have hl : (json_dumps b.output ++ "<|endoftext|>".data).length
        - "<|endoftext|>".length
      = (json_dumps b.output).length := by
    rw [List.length_append]
    have hrf : "<|endoftext|>".length = "<|endoftext|>".data.length := rfl
    omega
  simp only [ausgabeSegment]
  rw [hdata, hk, List.drop_left, hl, List.take_left]

/-- C6: for every example (with an output value in the JSON fragment, where
serialization always succeeds), deserializing the serialized-output segment
of the rendered prompt — the text between the `### Ausgabe: ` separator and
the end-of-sequence marker — yields the original output value. -/
theorem C6_ausgabe_roundtrip (b : Beispiel) :
    json_loads ⟨ausgabeSegment b⟩ = some b.output := by
  rw [ausgabeSegment_eq]
  exact json_loads_dumps b.output
